import Mathlib

/-!
Verification of the vS3 multipart-upload client and request-signing middleware.

Definitions are shallow embeddings of the TypeScript sources in
`packages/vs3/src` (client orchestrator, xhr part uploader, middleware), with
files modelled as lists of bytes, fallible network calls as `Except`-valued
oracles supplied through an environment record, and the sequence of
control-plane calls made by a run recorded in an explicit call log.
-/

namespace VS3

/-! ### File splitting (client/fetch-schema.ts, `splitFileIntoParts`)

A `File`/`Blob` is modelled as a `List Nat` of its bytes.  `Blob.slice(a, b)`
returns the bytes in `[a, min b size)`, clamping out-of-range indices, which
is exactly `(file.drop a).take (b - a)`.
-/

/-- Models `Blob.slice(start, stop)`: the bytes of positions `[start, stop)`,
clamped to the blob's size. -/
def blobSlice (file : List Nat) (start stop : Nat) : List Nat :=
  (file.drop start).take (stop - start)

/-- Models the `while (offset < file.size)` loop of `splitFileIntoParts`,
starting from a given `offset`.  The source loop does not terminate for
`partSize = 0`; the guard `0 < partSize` makes the model total (claims only
concern positive part sizes). -/
def splitLoop (file : List Nat) (partSize offset : Nat) : List (List Nat) :=
  if _h : offset < file.length ∧ 0 < partSize then
    blobSlice file offset (offset + partSize) :: splitLoop file partSize (offset + partSize)
  else
    []
termination_by file.length - offset
decreasing_by omega

/-- Models `splitFileIntoParts(file, partSize)` from
`client/fetch-schema.ts`. -/
def splitFileIntoParts (file : List Nat) (partSize : Nat) : List (List Nat) :=
  splitLoop file partSize 0

theorem splitLoop_eq_nil (file : List Nat) (partSize offset : Nat)
    (h : ¬(offset < file.length ∧ 0 < partSize)) :
    splitLoop file partSize offset = [] := by
  rw [splitLoop, dif_neg h]

theorem splitLoop_eq_cons (file : List Nat) (partSize offset : Nat)
    (h : offset < file.length ∧ 0 < partSize) :
    splitLoop file partSize offset =
      blobSlice file offset (offset + partSize) ::
        splitLoop file partSize (offset + partSize) := by
  rw [splitLoop, dif_pos h]

theorem splitLoop_length (file : List Nat) (P : Nat) (hP : 0 < P) :
    ∀ offset, (splitLoop file P offset).length = (file.length - offset + P - 1) / P := by
  have main : ∀ n offset, file.length - offset ≤ n →
      (splitLoop file P offset).length = (file.length - offset + P - 1) / P := by
    intro n
    induction n with
    | zero =>
      intro off h
      have hoff : ¬(off < file.length ∧ 0 < P) := by omega
      rw [splitLoop_eq_nil file P off hoff]
      have h0 : file.length - off = 0 := by omega
      simp only [List.length_nil, h0]
      exact (Nat.div_eq_of_lt (by omega)).symm
    | succ n ih =>
      intro off h
      by_cases hcond : off < file.length ∧ 0 < P
      · rw [splitLoop_eq_cons file P off hcond]
        have hrec := ih (off + P) (by omega)
        simp only [List.length_cons, hrec]
        -- arithmetic: (S - off + P - 1) / P = (S - (off + P) + P - 1) / P + 1
        by_cases hsmall : file.length ≤ off + P
        · have h1 : file.length - (off + P) + P - 1 < P := by omega
          rw [Nat.div_eq_of_lt h1]
          have h2 : (file.length - off + P - 1) / P = 1 := by
            apply Nat.div_eq_of_lt_le
            · omega
            · omega
          omega
        · have h1 : file.length - off + P - 1 = (file.length - (off + P) + P - 1) + P := by
            omega
          rw [h1, Nat.add_div_right _ hP]
      · rw [splitLoop_eq_nil file P off hcond]
        have h0 : file.length - off = 0 := by omega
        simp only [List.length_nil, h0]
        exact (Nat.div_eq_of_lt (by omega)).symm
  intro offset
  exact main (file.length - offset) offset (Nat.le_refl _)

theorem splitLoop_flatten (file : List Nat) (P : Nat) (hP : 0 < P) :
    ∀ offset, (splitLoop file P offset).flatten = file.drop offset := by
  have main : ∀ n offset, file.length - offset ≤ n →
      (splitLoop file P offset).flatten = file.drop offset := by
    intro n
    induction n with
    | zero =>
      intro off h
      have hoff : ¬(off < file.length ∧ 0 < P) := by omega
      rw [splitLoop_eq_nil file P off hoff]
      have hle : file.length ≤ off := by omega
      simp [List.drop_eq_nil_of_le hle]
    | succ n ih =>
      intro off h
      by_cases hcond : off < file.length ∧ 0 < P
      · rw [splitLoop_eq_cons file P off hcond]
        have hrec := ih (off + P) (by omega)
        have h1 : off + P - off = P := by omega
        rw [List.flatten_cons, hrec, blobSlice, h1]
        exact List.drop_take_append_drop file off P
      · rw [splitLoop_eq_nil file P off hcond]
        have hle : file.length ≤ off := by omega
        simp [List.drop_eq_nil_of_le hle]
  intro offset
  exact main (file.length - offset) offset (Nat.le_refl _)

theorem splitLoop_getElem? (file : List Nat) (P : Nat) (hP : 0 < P) :
    ∀ offset i, i < (splitLoop file P offset).length →
      (splitLoop file P offset)[i]? =
        some (blobSlice file (offset + i * P) (offset + i * P + P)) := by
  have main : ∀ n offset, file.length - offset ≤ n →
      ∀ i, i < (splitLoop file P offset).length →
        (splitLoop file P offset)[i]? =
          some (blobSlice file (offset + i * P) (offset + i * P + P)) := by
    intro n
    induction n with
    | zero =>
      intro off hn i h
      have hoff : ¬(off < file.length ∧ 0 < P) := by omega
      rw [splitLoop_eq_nil file P off hoff] at h
      exact absurd h (by simp)
    | succ n ih =>
      intro off hn i h
      by_cases hcond : off < file.length ∧ 0 < P
      · have hexp := splitLoop_eq_cons file P off hcond
        rcases i with _ | i
        · rw [hexp, List.getElem?_cons_zero]
          norm_num
        · rw [hexp] at h
          have h' : i < (splitLoop file P (off + P)).length := by
            simpa using h
          have hrec := ih (off + P) (by omega) i h'
          rw [hexp, List.getElem?_cons_succ, hrec]
          have harg : off + P + i * P = off + (i + 1) * P := by ring
          rw [harg]
      · rw [splitLoop_eq_nil file P off hcond] at h
        exact absurd h (by simp)
  intro offset
  exact main (file.length - offset) offset (Nat.le_refl _)

theorem blobSlice_length (file : List Nat) (a P : Nat) :
    (blobSlice file a (a + P)).length = min P (file.length - a) := by
  simp [blobSlice]

/-- C3: splitting a file of size `S` with part size `P > 0` produces
`ceil(S / P)` contiguous, non-overlapping parts in slice order (their
concatenation is the file, and the `i`-th part — 0-based, carrying part
number `i + 1` — is exactly the slice `[i*P, i*P + P)`); every part except
the last has byte length `P`, and the last part has byte length
`S - (totalParts - 1) * P`. -/
theorem splitFileIntoParts_spec (file : List Nat) (P : Nat) (hP : 0 < P) :
    (splitFileIntoParts file P).length = (file.length + P - 1) / P
    ∧ (splitFileIntoParts file P).flatten = file
    ∧ (∀ i (h : i < (splitFileIntoParts file P).length),
        (splitFileIntoParts file P).get ⟨i, h⟩ = blobSlice file (i * P) (i * P + P))
    ∧ (∀ i (h : i < (splitFileIntoParts file P).length),
        i + 1 < (splitFileIntoParts file P).length →
        ((splitFileIntoParts file P).get ⟨i, h⟩).length = P)
    ∧ (∀ h : (splitFileIntoParts file P).length - 1 < (splitFileIntoParts file P).length,
        ((splitFileIntoParts file P).get ⟨(splitFileIntoParts file P).length - 1, h⟩).length =
          file.length - ((splitFileIntoParts file P).length - 1) * P) := by
  have hlen : (splitFileIntoParts file P).length = (file.length + P - 1) / P := by
    have h1 := splitLoop_length file P hP 0
    simpa [splitFileIntoParts] using h1
  have hget : ∀ i (h : i < (splitFileIntoParts file P).length),
      (splitFileIntoParts file P).get ⟨i, h⟩ = blobSlice file (i * P) (i * P + P) := by
    intro i h
    have hlt : i < (splitLoop file P 0).length := h
    have h1 := splitLoop_getElem? file P hP 0 i hlt
    rw [List.getElem?_eq_getElem hlt] at h1
    have h3 := Option.some.inj h1
    calc (splitFileIntoParts file P).get ⟨i, h⟩ = (splitLoop file P 0)[i] := rfl
      _ = blobSlice file (0 + i * P) (0 + i * P + P) := h3
      _ = blobSlice file (i * P) (i * P + P) := by norm_num
  refine ⟨hlen, ?_, hget, ?_, ?_⟩
  · have h1 := splitLoop_flatten file P hP 0
    simpa [splitFileIntoParts] using h1
  · intro i h hmid
    rw [hget i h, blobSlice_length]
    -- i + 2 ≤ ceil(S/P)  ⟹  S - i*P ≥ P
    have hle : i + 2 ≤ (file.length + P - 1) / P := by omega
    have hmul : (i + 2) * P ≤ file.length + P - 1 :=
      (Nat.le_div_iff_mul_le hP).mp hle
    have hrem : P ≤ file.length - i * P := by
      have hexp : (i + 2) * P = i * P + P + P := by ring
      omega
    omega
  · intro h
    rw [hget _ h, blobSlice_length]
    have hlen' := hlen
    generalize hL : (splitFileIntoParts file P).length = L at h hlen' ⊢
    have hLpos : 0 < L := by omega
    have e1 : L * P = (L - 1) * P + P := by
      rcases L with _ | k
      · omega
      · simp only [Nat.add_sub_cancel]
        ring
    have e2 : (L + 1) * P = L * P + P := by ring
    have hub : file.length + P - 1 < (L + 1) * P := by
      have h1 : (file.length + P - 1) / P < L + 1 := by omega
      exact (Nat.div_lt_iff_lt_mul hP).mp h1
    omega

/-- Witness for `splitFileIntoParts_spec` at a 250-byte file with
`partSize = 100` (the spec's own scenario: 3 parts of 100, 100, 50 bytes). -/
theorem splitFileIntoParts_spec_witness :
    0 < 100
    ∧ ((splitFileIntoParts (List.replicate 250 0) 100).length =
          ((List.replicate 250 0).length + 100 - 1) / 100
      ∧ (splitFileIntoParts (List.replicate 250 0) 100).flatten = List.replicate 250 0
      ∧ (∀ i (h : i < (splitFileIntoParts (List.replicate 250 0) 100).length),
          (splitFileIntoParts (List.replicate 250 0) 100).get ⟨i, h⟩ =
            blobSlice (List.replicate 250 0) (i * 100) (i * 100 + 100))
      ∧ (∀ i (h : i < (splitFileIntoParts (List.replicate 250 0) 100).length),
          i + 1 < (splitFileIntoParts (List.replicate 250 0) 100).length →
          ((splitFileIntoParts (List.replicate 250 0) 100).get ⟨i, h⟩).length = 100)
      ∧ (∀ h : (splitFileIntoParts (List.replicate 250 0) 100).length - 1 <
            (splitFileIntoParts (List.replicate 250 0) 100).length,
          ((splitFileIntoParts (List.replicate 250 0) 100).get
              ⟨(splitFileIntoParts (List.replicate 250 0) 100).length - 1, h⟩).length =
            (List.replicate 250 0).length -
              ((splitFileIntoParts (List.replicate 250 0) 100).length - 1) * 100)) :=
  ⟨by decide, splitFileIntoParts_spec (List.replicate 250 0) 100 (by decide)⟩

/-! ### Multipart upload orchestrator (client/fetch-schema.ts)

The orchestrator's network effects are modelled by a `FetchEnv` of
`Except`-valued oracles (one per control-plane endpoint / part PUT) and an
explicit log of the control-plane calls a run performs, in order.  Part
uploads are processed in queue order here; the completion-order dependence of
the manifest is treated separately by quantifying `buildCompletionManifest`
over permutations of the completed-part list.
-/

structure XhrUploadPartResult where
  partNumber : Nat
  eTag : String
deriving DecidableEq, Repr

structure MultipartUploadPart where
  partNumber : Nat
  eTag : String
deriving DecidableEq, Repr

structure PresignedPart where
  partNumber : Nat
  presignedUrl : String
deriving DecidableEq, Repr

structure MultipartUploadResult where
  key : String
  uploadId : String
  totalParts : Nat
deriving DecidableEq, Repr

/-- Boolean comparison corresponding to the JS comparator
`(a, b) => a.partNumber - b.partNumber` (ascending by part number). -/
def partLE (a b : MultipartUploadPart) : Bool := a.partNumber ≤ b.partNumber

/-- Models lines 222-224 of the orchestrator: `completedParts.map(p => ({partNumber, eTag})).sort((a, b) => a.partNumber - b.partNumber)`.
JS `Array.prototype.sort` is a stable sort, modelled by `List.mergeSort`. -/
def buildCompletionManifest (completedParts : List XhrUploadPartResult) :
    List MultipartUploadPart :=
  (completedParts.map fun p => ⟨p.partNumber, p.eTag⟩).mergeSort partLE

/-- One control-plane (or part PUT) call made by the orchestrator, with the
arguments the claims are about. -/
inductive OrchCall where
  | create
  | presignParts (key uploadId : String) (partNumbers : List Nat)
  | uploadPart (partNumber : Nat)
  | complete (key uploadId : String) (parts : List MultipartUploadPart)
  | abort (key uploadId : String)
deriving DecidableEq, Repr

/-- Oracles giving the outcome of each network call the orchestrator can
make. `createResult` yields `(uploadId, key)` as the source destructures it. -/
structure FetchEnv where
  createResult : Except String (String × String)
  presignResult : String → String → List Nat → Except String (List PresignedPart)
  uploadPartResult : Nat → Except String String
  completeResult : String → String → List MultipartUploadPart → Except String Unit
  abortResult : Except String Unit

def PRESIGN_BATCH_SIZE : Nat := 10

def DEFAULT_PART_SIZE : Nat := 10 * 1024 * 1024

def DEFAULT_CONCURRENCY : Nat := 4

/-- Models the `for (let i = 0; i < allPartNumbers.length; i += PRESIGN_BATCH_SIZE)`
presign loop together with `presignPartsBatch`: one `presign-parts` call per
batch of at most `PRESIGN_BATCH_SIZE` part numbers, failing fast on the first
batch whose response is an error. -/
def presignLoop (env : FetchEnv) (key uploadId : String) (partNumbers : List Nat) :
    Except String (List PresignedPart) × List OrchCall :=
  if hne : partNumbers = [] then (.ok [], [])
  else
    match env.presignResult key uploadId (partNumbers.take PRESIGN_BATCH_SIZE) with
    | .error e =>
        (.error e, [.presignParts key uploadId (partNumbers.take PRESIGN_BATCH_SIZE)])
    | .ok ps =>
      match presignLoop env key uploadId (partNumbers.drop PRESIGN_BATCH_SIZE) with
      | (.error e, calls) =>
          (.error e,
            .presignParts key uploadId (partNumbers.take PRESIGN_BATCH_SIZE) :: calls)
      | (.ok more, calls) =>
          (.ok (ps ++ more),
            .presignParts key uploadId (partNumbers.take PRESIGN_BATCH_SIZE) :: calls)
termination_by partNumbers.length
decreasing_by
  have hpos : 0 < partNumbers.length := List.length_pos.mpr hne
  simp [List.length_drop, PRESIGN_BATCH_SIZE]
  omega

/-- Models the upload phase: each presigned part is uploaded via
`xhrUploadPart` (outcome abstracted by the `uploadPartResult` oracle), results
collected in processing order, failing on the first part whose upload fails. -/
def uploadLoop (env : FetchEnv) :
    List PresignedPart → Except String (List XhrUploadPartResult) × List OrchCall
  | [] => (.ok [], [])
  | p :: rest =>
    match env.uploadPartResult p.partNumber with
    | .error e => (.error e, [.uploadPart p.partNumber])
    | .ok tag =>
      match uploadLoop env rest with
      | (.error e, calls) => (.error e, .uploadPart p.partNumber :: calls)
      | (.ok rs, calls) => (.ok (⟨p.partNumber, tag⟩ :: rs), .uploadPart p.partNumber :: calls)

/-- Models `abortUpload`: the `abort` endpoint is called and the outcome of
the call — success or failure — is discarded (`try/catch` with an empty
catch block in the source). -/
def abortUpload (env : FetchEnv) (key uploadId : String) : List OrchCall :=
  match env.abortResult with
  | .ok _ => [.abort key uploadId]
  | .error _ => [.abort key uploadId]

/-- Models the body of the orchestrator's `try` block (after a successful
`create`): presign in batches (part numbers `1..totalParts`), upload every
presigned part, build the sorted manifest and submit it to `complete`; on
any failure, call `abortUpload` before the original error is rethrown. -/
def runAfterCreate (env : FetchEnv) (key uploadId : String) (totalParts : Nat) :
    Except String MultipartUploadResult × List OrchCall :=
  match presignLoop env key uploadId ((List.range totalParts).map (· + 1)) with
  | (.error e, pcalls) => (.error e, pcalls ++ abortUpload env key uploadId)
  | (.ok presigned, pcalls) =>
    match uploadLoop env presigned with
    | (.error e, ucalls) => (.error e, pcalls ++ ucalls ++ abortUpload env key uploadId)
    | (.ok completed, ucalls) =>
      match env.completeResult key uploadId (buildCompletionManifest completed) with
      | .error e =>
          (.error e, pcalls ++ ucalls ++
            ([.complete key uploadId (buildCompletionManifest completed)] ++
              abortUpload env key uploadId))
      | .ok _ =>
          (.ok ⟨key, uploadId, totalParts⟩,
            pcalls ++ ucalls ++ [.complete key uploadId (buildCompletionManifest completed)])

/-- Models `executeMultipartUpload`: call `create` (a failure here is thrown
with no cleanup — nothing was created server-side), split the file, then run
the `try` block.  Result of the run paired with the ordered call log. -/
def executeMultipartUpload (env : FetchEnv) (file : List Nat) (partSizeOpt : Option Nat) :
    Except String MultipartUploadResult × List OrchCall :=
  match env.createResult with
  | .error e => (.error e, [.create])
  | .ok (uploadId, key) =>
    match runAfterCreate env key uploadId
        (splitFileIntoParts file (partSizeOpt.getD DEFAULT_PART_SIZE)).length with
    | (res, calls) => (res, .create :: calls)

theorem presignLoop_calls (env : FetchEnv) (key uploadId : String) :
    ∀ partNumbers, ∀ c ∈ (presignLoop env key uploadId partNumbers).2,
      ∃ b, c = OrchCall.presignParts key uploadId b := by
  have main : ∀ n partNumbers, partNumbers.length ≤ n →
      ∀ c ∈ (presignLoop env key uploadId partNumbers).2,
        ∃ b, c = OrchCall.presignParts key uploadId b := by
    intro n
    induction n with
    | zero =>
      intro pns hlen c hc
      have hnil : pns = [] := List.length_eq_zero.mp (by omega)
      subst hnil
      rw [presignLoop] at hc
      simp at hc
    | succ n ih =>
      intro pns hlen c hc
      by_cases hne : pns = []
      · subst hne
        rw [presignLoop] at hc
        simp at hc
      · rw [presignLoop, dif_neg hne] at hc
        have hdrop : (pns.drop PRESIGN_BATCH_SIZE).length ≤ n := by
          have hpos : 0 < pns.length := List.length_pos.mpr hne
          simp [List.length_drop, PRESIGN_BATCH_SIZE]
          omega
        rcases hres : env.presignResult key uploadId (pns.take PRESIGN_BATCH_SIZE) with e | ps
        · rw [hres] at hc
          simp at hc
          exact ⟨_, hc⟩
        · rw [hres] at hc
          rcases hrest : presignLoop env key uploadId (pns.drop PRESIGN_BATCH_SIZE) with ⟨r, calls⟩
          rw [hrest] at hc
          rcases r with e | more
          · simp at hc
            rcases hc with hc | hc
            · exact ⟨_, hc⟩
            · exact ih _ hdrop c (by rw [hrest]; simpa using hc)
          · simp at hc
            rcases hc with hc | hc
            · exact ⟨_, hc⟩
            · exact ih _ hdrop c (by rw [hrest]; simpa using hc)
  intro pns
  exact main pns.length pns (Nat.le_refl _)

theorem uploadLoop_calls (env : FetchEnv) :
    ∀ ps, ∀ c ∈ (uploadLoop env ps).2, ∃ pn, c = OrchCall.uploadPart pn := by
  intro ps
  induction ps with
  | nil =>
    intro c hc
    simp [uploadLoop] at hc
  | cons p rest ih =>
    intro c hc
    rw [uploadLoop] at hc
    rcases hres : env.uploadPartResult p.partNumber with e | tag
    · rw [hres] at hc
      simp at hc
      exact ⟨_, hc⟩
    · rw [hres] at hc
      rcases hrest : uploadLoop env rest with ⟨r, calls⟩
      rw [hrest] at hc
      rcases r with e | rs
      · simp at hc
        rcases hc with hc | hc
        · exact ⟨_, hc⟩
        · exact ih c (by rw [hrest]; simpa using hc)
      · simp at hc
        rcases hc with hc | hc
        · exact ⟨_, hc⟩
        · exact ih c (by rw [hrest]; simpa using hc)

theorem buildCompletionManifest_pairwise (l : List XhrUploadPartResult) :
    (buildCompletionManifest l).Pairwise (fun a b => a.partNumber ≤ b.partNumber) := by
  have htrans : ∀ a b c : MultipartUploadPart,
      partLE a b = true → partLE b c = true → partLE a c = true := by
    intro a b c h1 h2
    simp [partLE] at h1 h2 ⊢
    omega
  have htotal : ∀ a b : MultipartUploadPart, (partLE a b || partLE b a) = true := by
    intro a b
    simp [partLE]
    omega
  have h := @List.sorted_mergeSort _ partLE htrans htotal
    (l.map fun p => ⟨p.partNumber, p.eTag⟩)
  exact h.imp (fun hab => by simpa [partLE] using hab)

theorem buildCompletionManifest_perm (l : List XhrUploadPartResult) :
    (buildCompletionManifest l).Perm (l.map fun p => ⟨p.partNumber, p.eTag⟩) :=
  List.mergeSort_perm _ _

theorem buildCompletionManifest_perm_eq (l₁ l₂ : List XhrUploadPartResult)
    (hperm : l₁.Perm l₂)
    (hnd : (l₁.map XhrUploadPartResult.partNumber).Nodup) :
    buildCompletionManifest l₁ = buildCompletionManifest l₂ := by
  have hp1 := buildCompletionManifest_perm l₁
  have hp2 := buildCompletionManifest_perm l₂
  have hp : (buildCompletionManifest l₁).Perm (buildCompletionManifest l₂) :=
    hp1.trans (((hperm.map _)).trans hp2.symm)
  have hkeymap : ∀ l : List XhrUploadPartResult,
      (l.map fun p => (⟨p.partNumber, p.eTag⟩ : MultipartUploadPart)).map
          MultipartUploadPart.partNumber = l.map XhrUploadPartResult.partNumber := by
    intro l
    rw [List.map_map]
    rfl
  have hstrict : ∀ l : List XhrUploadPartResult,
      (l.map XhrUploadPartResult.partNumber).Nodup →
      (buildCompletionManifest l).Pairwise (fun a b => a.partNumber < b.partNumber) := by
    intro l hl
    have hperm_keys : ((buildCompletionManifest l).map MultipartUploadPart.partNumber).Perm
        (l.map XhrUploadPartResult.partNumber) := by
      have := (buildCompletionManifest_perm l).map MultipartUploadPart.partNumber
      rwa [hkeymap l] at this
    have hnd' : ((buildCompletionManifest l).map MultipartUploadPart.partNumber).Nodup :=
      (hperm_keys.nodup_iff).mpr hl
    have hne : (buildCompletionManifest l).Pairwise
        (fun a b => a.partNumber ≠ b.partNumber) :=
      List.pairwise_map.mp hnd'
    have hle := buildCompletionManifest_pairwise l
    exact (hle.and hne).imp (fun hab => by omega)
  have hnd₂ : (l₂.map XhrUploadPartResult.partNumber).Nodup :=
    ((hperm.map XhrUploadPartResult.partNumber).nodup_iff).mp hnd
  haveI : IsAntisymm MultipartUploadPart (fun a b => a.partNumber < b.partNumber) :=
    ⟨fun a b h1 h2 => absurd h1 (by omega)⟩
  exact List.eq_of_perm_of_sorted hp (hstrict l₁ hnd) (hstrict l₂ hnd₂)

theorem abortUpload_eq (env : FetchEnv) (key uploadId : String) :
    abortUpload env key uploadId = [OrchCall.abort key uploadId] := by
  cases h : env.abortResult <;> simp [abortUpload, h]

theorem presignLoop_nil (env : FetchEnv) (key uploadId : String) :
    presignLoop env key uploadId [] = (.ok [], []) := by
  rw [presignLoop]
  simp

theorem presignLoop_ext (env env' : FetchEnv)
    (h : env.presignResult = env'.presignResult) (key uploadId : String) :
    ∀ pns, presignLoop env key uploadId pns = presignLoop env' key uploadId pns := by
  have main : ∀ n pns, pns.length ≤ n →
      presignLoop env key uploadId pns = presignLoop env' key uploadId pns := by
    intro n
    induction n with
    | zero =>
      intro pns hlen
      have hnil : pns = [] := List.length_eq_zero.mp (by omega)
      subst hnil
      rw [presignLoop_nil, presignLoop_nil]
    | succ n ih =>
      intro pns hlen
      by_cases hne : pns = []
      · subst hne
        rw [presignLoop_nil, presignLoop_nil]
      · have hpos : 0 < pns.length := List.length_pos.mpr hne
        have hrec := ih (pns.drop PRESIGN_BATCH_SIZE)
          (by simp [List.length_drop, PRESIGN_BATCH_SIZE]; omega)
        rw [presignLoop, dif_neg hne]
        conv_rhs => rw [presignLoop, dif_neg hne]
        rw [h, hrec]
  intro pns
  exact main pns.length pns (Nat.le_refl _)

theorem uploadLoop_ext (env env' : FetchEnv)
    (h : env.uploadPartResult = env'.uploadPartResult) :
    ∀ ps, uploadLoop env ps = uploadLoop env' ps := by
  intro ps
  induction ps with
  | nil => rfl
  | cons p rest ih =>
    rw [uploadLoop]
    conv_rhs => rw [uploadLoop]
    rw [h, ih]

theorem runAfterCreate_spec (env : FetchEnv) (key uploadId : String) (tp : Nat)
    (res : Except String MultipartUploadResult) (calls : List OrchCall)
    (hrun : runAfterCreate env key uploadId tp = (res, calls)) :
    ((∃ r, res = .ok r) → ∀ k u, OrchCall.abort k u ∉ calls)
    ∧ (∀ e, res = .error e →
        calls.count (OrchCall.abort key uploadId) = 1
        ∧ calls.getLast? = some (OrchCall.abort key uploadId)
        ∧ ∀ k u, OrchCall.abort k u ∈ calls → k = key ∧ u = uploadId) := by
  rw [runAfterCreate] at hrun
  rcases hpl : presignLoop env key uploadId ((List.range tp).map (· + 1))
    with ⟨e | presigned, pcalls⟩
  all_goals
    have hpc_noabort : ∀ k u, OrchCall.abort k u ∉ pcalls := by
      intro k u hmem
      rcases presignLoop_calls env key uploadId _ _ (by rw [hpl]; exact hmem) with ⟨b, hb⟩
      exact absurd hb (by simp)
  · -- presign failed: calls = pcalls ++ [abort key uploadId]
    simp only [hpl, abortUpload_eq] at hrun
    injection hrun with h1 h2
    subst h1
    subst h2
    refine ⟨?_, ?_⟩
    · rintro ⟨r, hr⟩
      exact Except.noConfusion hr
    · intro e' _
      refine ⟨?_, ?_, ?_⟩
      · rw [List.count_append, List.count_eq_zero.mpr (hpc_noabort key uploadId)]
        simp
      · exact List.getLast?_concat _
      · intro k u hm
        rcases List.mem_append.mp hm with hm | hm
        · exact absurd hm (hpc_noabort k u)
        · simp at hm
          exact hm
  · simp only [hpl] at hrun
    rcases hul : uploadLoop env presigned with ⟨ue | completed, ucalls⟩
    all_goals
      have huc_noabort : ∀ k u, OrchCall.abort k u ∉ ucalls := by
        intro k u hmem
        rcases uploadLoop_calls env _ _ (by rw [hul]; exact hmem) with ⟨pn, hb⟩
        exact absurd hb (by simp)
    · -- some part upload failed: calls = pcalls ++ ucalls ++ [abort key uploadId]
      simp only [hul, abortUpload_eq] at hrun
      injection hrun with h1 h2
      subst h1
      subst h2
      refine ⟨?_, ?_⟩
      · rintro ⟨r, hr⟩
        exact Except.noConfusion hr
      · intro e' _
        refine ⟨?_, ?_, ?_⟩
        · rw [List.count_append, List.count_append,
            List.count_eq_zero.mpr (hpc_noabort key uploadId),
            List.count_eq_zero.mpr (huc_noabort key uploadId)]
          simp
        · exact List.getLast?_concat _
        · intro k u hm
          rcases List.mem_append.mp hm with hm | hm
          · rcases List.mem_append.mp hm with hm | hm
            · exact absurd hm (hpc_noabort k u)
            · exact absurd hm (huc_noabort k u)
          · simp at hm
            exact hm
    · simp only [hul] at hrun
      rcases hcm : env.completeResult key uploadId (buildCompletionManifest completed)
        with e | u
      · -- complete failed: calls = pcalls ++ ucalls ++ [complete, abort]
        simp only [hcm, abortUpload_eq] at hrun
        injection hrun with h1 h2
        subst h1
        subst h2
        refine ⟨?_, ?_⟩
        · rintro ⟨r, hr⟩
          exact Except.noConfusion hr
        · intro e' _
          refine ⟨?_, ?_, ?_⟩
          · rw [List.count_append, List.count_append,
              List.count_eq_zero.mpr (hpc_noabort key uploadId),
              List.count_eq_zero.mpr (huc_noabort key uploadId)]
            simp
          · rw [List.getLast?_append]
            simp
          · intro k u hm
            rcases List.mem_append.mp hm with hm | hm
            · rcases List.mem_append.mp hm with hm | hm
              · exact absurd hm (hpc_noabort k u)
              · exact absurd hm (huc_noabort k u)
            · simp at hm
              exact hm
      · -- success: calls = pcalls ++ ucalls ++ [complete] (no abort anywhere)
        simp only [hcm] at hrun
        injection hrun with h1 h2
        subst h1
        subst h2
        refine ⟨?_, ?_⟩
        · intro _ k u hm
          rcases List.mem_append.mp hm with hm | hm
          · rcases List.mem_append.mp hm with hm | hm
            · exact absurd hm (hpc_noabort k u)
            · exact absurd hm (huc_noabort k u)
          · simp at hm
        · intro e' he'
          exact Except.noConfusion he'

theorem runAfterCreate_complete_calls (env : FetchEnv) (key uploadId : String) (tp : Nat)
    (res : Except String MultipartUploadResult) (calls : List OrchCall)
    (hrun : runAfterCreate env key uploadId tp = (res, calls)) :
    ∀ k u parts, OrchCall.complete k u parts ∈ calls →
      k = key ∧ u = uploadId ∧ ∃ completed, parts = buildCompletionManifest completed := by
  rw [runAfterCreate] at hrun
  rcases hpl : presignLoop env key uploadId ((List.range tp).map (· + 1))
    with ⟨e | presigned, pcalls⟩
  all_goals
    have hpc_nocomplete : ∀ k u parts, OrchCall.complete k u parts ∉ pcalls := by
      intro k u parts hmem
      rcases presignLoop_calls env key uploadId _ _ (by rw [hpl]; exact hmem) with ⟨b, hb⟩
      exact absurd hb (by simp)
  · simp only [hpl, abortUpload_eq] at hrun
    injection hrun with h1 h2
    subst h2
    intro k u parts hm
    rcases List.mem_append.mp hm with hm | hm
    · exact absurd hm (hpc_nocomplete k u parts)
    · simp at hm
  · simp only [hpl] at hrun
    rcases hul : uploadLoop env presigned with ⟨ue | completed, ucalls⟩
    all_goals
      have huc_nocomplete : ∀ k u parts, OrchCall.complete k u parts ∉ ucalls := by
        intro k u parts hmem
        rcases uploadLoop_calls env _ _ (by rw [hul]; exact hmem) with ⟨pn, hb⟩
        exact absurd hb (by simp)
    · simp only [hul, abortUpload_eq] at hrun
      injection hrun with h1 h2
      subst h2
      intro k u parts hm
      rcases List.mem_append.mp hm with hm | hm
      · rcases List.mem_append.mp hm with hm | hm
        · exact absurd hm (hpc_nocomplete k u parts)
        · exact absurd hm (huc_nocomplete k u parts)
      · simp at hm
    · simp only [hul] at hrun
      rcases hcm : env.completeResult key uploadId (buildCompletionManifest completed)
        with e | uu
      · simp only [hcm, abortUpload_eq] at hrun
        injection hrun with h1 h2
        subst h2
        intro k u parts hm
        rcases List.mem_append.mp hm with hm | hm
        · rcases List.mem_append.mp hm with hm | hm
          · exact absurd hm (hpc_nocomplete k u parts)
          · exact absurd hm (huc_nocomplete k u parts)
        · simp at hm
          exact ⟨hm.1, hm.2.1, completed, hm.2.2⟩
      · simp only [hcm] at hrun
        injection hrun with h1 h2
        subst h2
        intro k u parts hm
        rcases List.mem_append.mp hm with hm | hm
        · rcases List.mem_append.mp hm with hm | hm
          · exact absurd hm (hpc_nocomplete k u parts)
          · exact absurd hm (huc_nocomplete k u parts)
        · simp at hm
          exact ⟨hm.1, hm.2.1, completed, hm.2.2⟩

theorem runAfterCreate_res_ext (env env' : FetchEnv)
    (hp : env.presignResult = env'.presignResult)
    (hu : env.uploadPartResult = env'.uploadPartResult)
    (hc : env.completeResult = env'.completeResult)
    (key uploadId : String) (tp : Nat) :
    (runAfterCreate env key uploadId tp).1 = (runAfterCreate env' key uploadId tp).1 := by
  simp only [runAfterCreate, presignLoop_ext env env' hp key uploadId,
    uploadLoop_ext env env' hu, hc, abortUpload_eq]

/-- C1: for every multipart upload in which all part uploads succeed, the
part manifest submitted to the control-plane `complete` endpoint is sorted
ascending by `partNumber`, regardless of the order in which the individual
part uploads resolve: the manifest built from any completed-part list is
sorted ascending by part number, two resolution orders of the same parts
(part numbers being distinct) produce identical manifests, and every
manifest the orchestrator submits to `complete` is of that sorted form. -/
theorem executeMultipartUpload_manifest_sorted
    (l₁ l₂ : List XhrUploadPartResult) (hperm : l₁.Perm l₂)
    (hnd : (l₁.map XhrUploadPartResult.partNumber).Nodup)
    (env : FetchEnv) (file : List Nat) (pso : Option Nat)
    (k u : String) (parts : List MultipartUploadPart) :
    (buildCompletionManifest l₁).Pairwise (fun a b => a.partNumber ≤ b.partNumber)
    ∧ buildCompletionManifest l₁ = buildCompletionManifest l₂
    ∧ (OrchCall.complete k u parts ∈ (executeMultipartUpload env file pso).2 →
        parts.Pairwise (fun a b => a.partNumber ≤ b.partNumber)) := by
  refine ⟨buildCompletionManifest_pairwise l₁,
    buildCompletionManifest_perm_eq l₁ l₂ hperm hnd, ?_⟩
  intro hmem
  rw [executeMultipartUpload] at hmem
  rcases hcre : env.createResult with e | ⟨uid, ky⟩
  · simp only [hcre] at hmem
    simp at hmem
  · simp only [hcre] at hmem
    rcases hrun : runAfterCreate env ky uid
        (splitFileIntoParts file (pso.getD DEFAULT_PART_SIZE)).length with ⟨res, calls⟩
    simp only [hrun] at hmem
    simp at hmem
    rcases runAfterCreate_complete_calls env ky uid _ res calls hrun k u parts hmem
      with ⟨hk, hu, completed, hp⟩
    subst hp
    exact buildCompletionManifest_pairwise completed

/-- Environment whose `create` call fails (used by concrete witnesses). -/
def envCreateFail : FetchEnv :=
  { createResult := .error "boom"
    presignResult := fun _ _ _ => .ok []
    uploadPartResult := fun _ => .ok "etag"
    completeResult := fun _ _ _ => .ok ()
    abortResult := .ok () }

/-- Witness for `executeMultipartUpload_manifest_sorted`: two resolution
orders of the same two parts. -/
theorem executeMultipartUpload_manifest_sorted_witness :
    ([⟨2, "b"⟩, ⟨1, "a"⟩] : List XhrUploadPartResult).Perm [⟨1, "a"⟩, ⟨2, "b"⟩]
    ∧ (([⟨2, "b"⟩, ⟨1, "a"⟩] : List XhrUploadPartResult).map
        XhrUploadPartResult.partNumber).Nodup
    ∧ ((buildCompletionManifest [⟨2, "b"⟩, ⟨1, "a"⟩]).Pairwise
        (fun a b => a.partNumber ≤ b.partNumber)
      ∧ buildCompletionManifest [⟨2, "b"⟩, ⟨1, "a"⟩] =
          buildCompletionManifest [⟨1, "a"⟩, ⟨2, "b"⟩]
      ∧ (OrchCall.complete "" "" [] ∈ (executeMultipartUpload envCreateFail [] none).2 →
          ([] : List MultipartUploadPart).Pairwise
            (fun a b => a.partNumber ≤ b.partNumber))) :=
  ⟨by decide, by decide,
    executeMultipartUpload_manifest_sorted [⟨2, "b"⟩, ⟨1, "a"⟩] [⟨1, "a"⟩, ⟨2, "b"⟩]
      (by decide) (by decide) envCreateFail [] none "" "" []⟩

/-- C2: the orchestrator calls the control-plane `abort` endpoint with the
same `{key, uploadId}` exactly when a failure occurs after a successful
`create` (in presign, part upload or the `complete` call itself) and before
the original error is rethrown (the abort call is the last call of the run
and the run's result is the original error); the abort call's own outcome
never changes the run's result; a failure of the `create` call itself never
triggers an abort call. -/
theorem executeMultipartUpload_abort_semantics (env : FetchEnv) (file : List Nat)
    (pso : Option Nat) :
    (∀ e, env.createResult = .error e →
        (executeMultipartUpload env file pso).1 = .error e
        ∧ ∀ k u, OrchCall.abort k u ∉ (executeMultipartUpload env file pso).2)
    ∧ (∀ uploadId key, env.createResult = .ok (uploadId, key) →
        ((∃ r, (executeMultipartUpload env file pso).1 = .ok r) →
            ∀ k u, OrchCall.abort k u ∉ (executeMultipartUpload env file pso).2)
        ∧ (∀ e, (executeMultipartUpload env file pso).1 = .error e →
            ((executeMultipartUpload env file pso).2).count
                (OrchCall.abort key uploadId) = 1
            ∧ ((executeMultipartUpload env file pso).2).getLast? =
                some (OrchCall.abort key uploadId)
            ∧ ∀ k u, OrchCall.abort k u ∈ (executeMultipartUpload env file pso).2 →
                k = key ∧ u = uploadId))
    ∧ (∀ a, (executeMultipartUpload { env with abortResult := a } file pso).1 =
        (executeMultipartUpload env file pso).1) := by
  refine ⟨?_, ?_, ?_⟩
  · intro e hcre
    rw [executeMultipartUpload]
    simp [hcre]
  · intro uploadId key hcre
    have hx : executeMultipartUpload env file pso =
        ((runAfterCreate env key uploadId
            (splitFileIntoParts file (pso.getD DEFAULT_PART_SIZE)).length).1,
          .create :: (runAfterCreate env key uploadId
            (splitFileIntoParts file (pso.getD DEFAULT_PART_SIZE)).length).2) := by
      rw [executeMultipartUpload]
      simp only [hcre]
    have spec := runAfterCreate_spec env key uploadId
      (splitFileIntoParts file (pso.getD DEFAULT_PART_SIZE)).length
      (runAfterCreate env key uploadId
        (splitFileIntoParts file (pso.getD DEFAULT_PART_SIZE)).length).1
      (runAfterCreate env key uploadId
        (splitFileIntoParts file (pso.getD DEFAULT_PART_SIZE)).length).2
      (by rw [Prod.mk.eta])
    rw [hx]
    refine ⟨?_, ?_⟩
    · rintro ⟨r, hr⟩ k u hm
      simp at hm
      exact spec.1 ⟨r, hr⟩ k u hm
    · intro e he
      obtain ⟨hc, hl, hmem⟩ := spec.2 e he
      refine ⟨?_, ?_, ?_⟩
      · simp [List.count_cons, hc]
      · show ([OrchCall.create] ++ (runAfterCreate env key uploadId
            (splitFileIntoParts file (pso.getD DEFAULT_PART_SIZE)).length).2).getLast? = _
        rw [List.getLast?_append, hl]
        rfl
      · intro k u hm
        simp at hm
        exact hmem k u hm
  · intro a
    rcases hcre : env.createResult with e | ⟨uid, ky⟩
    · have hgen : ∀ E : FetchEnv, E.createResult = .error e →
          (executeMultipartUpload E file pso).1 = .error e := by
        intro E hcr
        rw [executeMultipartUpload]
        simp [hcr]
      have h1 := hgen
        { createResult := .error e
          presignResult := env.presignResult
          uploadPartResult := env.uploadPartResult
          completeResult := env.completeResult
          abortResult := a } rfl
      rw [h1, hgen env hcre]
    · have hgen : ∀ E : FetchEnv, E.createResult = .ok (uid, ky) →
          E.presignResult = env.presignResult →
          E.uploadPartResult = env.uploadPartResult →
          E.completeResult = env.completeResult →
          (executeMultipartUpload E file pso).1 =
            (runAfterCreate env ky uid
              (splitFileIntoParts file (pso.getD DEFAULT_PART_SIZE)).length).1 := by
        intro E hcr hp hu hc
        rw [executeMultipartUpload]
        simp only [hcr]
        rcases hr : runAfterCreate E ky uid
            (splitFileIntoParts file (pso.getD DEFAULT_PART_SIZE)).length with ⟨res, calls⟩
        simp only [hr]
        have hext := runAfterCreate_res_ext E env hp hu hc ky uid
          (splitFileIntoParts file (pso.getD DEFAULT_PART_SIZE)).length
        rw [hr] at hext
        exact hext
      have h1 := hgen
        { createResult := .ok (uid, ky)
          presignResult := env.presignResult
          uploadPartResult := env.uploadPartResult
          completeResult := env.completeResult
          abortResult := a } rfl rfl rfl rfl
      rw [h1, hgen env hcre rfl rfl rfl]

/-- Witness for `executeMultipartUpload_abort_semantics`: a run whose
`create` call fails rethrows that error and performs no abort call. -/
theorem executeMultipartUpload_abort_semantics_witness :
    envCreateFail.createResult = .error "boom"
    ∧ ((executeMultipartUpload envCreateFail [] none).1 = .error "boom"
      ∧ ∀ k u, OrchCall.abort k u ∉ (executeMultipartUpload envCreateFail [] none).2) :=
  ⟨rfl, (executeMultipartUpload_abort_semantics envCreateFail [] none).1 "boom" rfl⟩

/-! ### Worker pool (`uploadPartsWithConcurrency`)

The upload phase spawns `Math.min(concurrency, presignedParts.length)`
cooperative workers, each running `processNext`: repeatedly read-and-advance
the shared index cursor (atomic under the single-threaded event loop) and
await the upload of that part.  The cooperative scheduling is modelled as a
small-step transition relation on the pool state; "in flight" means a worker
is currently awaiting a part upload.
-/

/-- Models line 133 of the orchestrator: the number of workers spawned is
`Math.min(concurrency, presignedParts.length)`. -/
def uploadWorkerCount (concurrency numParts : Nat) : Nat :=
  min concurrency numParts

/-- State of the worker pool: the shared queue cursor `index` and, per
worker, the part index it currently has in flight (`none` when the worker is
between parts or done). -/
structure PoolState where
  nextIndex : Nat
  workers : List (Option Nat)
deriving DecidableEq, Repr

/-- Pool state at the moment the workers are spawned. -/
def initPoolState (concurrency numParts : Nat) : PoolState :=
  { nextIndex := 0
    workers := List.replicate (uploadWorkerCount concurrency numParts) none }

/-- Number of part uploads currently in flight. -/
def inFlight (s : PoolState) : Nat := (s.workers.filter Option.isSome).length

/-- Cooperative small-step semantics of `processNext`: an idle worker whose
`while` guard sees `index < presignedParts.length` claims the next queue
index and starts that part's upload; a busy worker's in-flight upload
resolves, leaving it idle for the next loop iteration. -/
inductive PoolStep (numParts : Nat) : PoolState → PoolState → Prop
  | start (s : PoolState) (w : Nat) (hw : w < s.workers.length)
      (hidle : s.workers.get ⟨w, hw⟩ = none) (hq : s.nextIndex < numParts) :
      PoolStep numParts s ⟨s.nextIndex + 1, s.workers.set w (some s.nextIndex)⟩
  | finish (s : PoolState) (w : Nat) (hw : w < s.workers.length) (i : Nat)
      (hbusy : s.workers.get ⟨w, hw⟩ = some i) :
      PoolStep numParts s ⟨s.nextIndex, s.workers.set w none⟩

/-- Counterexample to C8 as stated: the pool does not consist of exactly
`concurrency` workers — with `concurrency = 4` and a single presigned part
the source spawns `Math.min(4, 1) = 1` worker. -/
theorem uploadWorkerCount_ne_concurrency :
    uploadWorkerCount 4 1 = 1 ∧ uploadWorkerCount 4 1 ≠ 4 := by
  decide

/-- C8 (amended): the upload phase runs a pool of
`min(concurrency, presignedParts.length)` cooperative workers pulling from
the shared queue cursor, each with at most one part upload in flight, so in
every reachable state of the pool at most `concurrency` part uploads are in
flight. -/
theorem poolStep_inFlight_bounded (concurrency numParts : Nat) (s : PoolState)
    (hreach : Relation.ReflTransGen (PoolStep numParts)
      (initPoolState concurrency numParts) s) :
    s.workers.length = uploadWorkerCount concurrency numParts
    ∧ inFlight s ≤ uploadWorkerCount concurrency numParts
    ∧ inFlight s ≤ concurrency := by
  have hlen : s.workers.length = uploadWorkerCount concurrency numParts := by
    induction hreach with
    | refl => simp [initPoolState]
    | tail h1 h2 ih =>
      cases h2 with
      | start w hw hidle hq => simpa [List.length_set] using ih
      | finish w hw i hbusy => simpa [List.length_set] using ih
  have hfil : inFlight s ≤ s.workers.length := List.length_filter_le _ _
  refine ⟨hlen, by omega, ?_⟩
  have hmin : uploadWorkerCount concurrency numParts ≤ concurrency :=
    Nat.min_le_left _ _
  omega

/-- Witness for `poolStep_inFlight_bounded`: with 2 workers and 3 parts, the
state reached after the first worker starts part 0. -/
theorem poolStep_inFlight_bounded_witness :
    Relation.ReflTransGen (PoolStep 3) (initPoolState 2 3) ⟨1, [some 0, none]⟩
    ∧ ((⟨1, [some 0, none]⟩ : PoolState).workers.length = uploadWorkerCount 2 3
      ∧ inFlight ⟨1, [some 0, none]⟩ ≤ uploadWorkerCount 2 3
      ∧ inFlight ⟨1, [some 0, none]⟩ ≤ 2) := by
  have hstep : PoolStep 3 (initPoolState 2 3) ⟨1, [some 0, none]⟩ :=
    @PoolStep.start 3 (initPoolState 2 3) 0 (by decide) (by decide) (by decide)
  exact ⟨Relation.ReflTransGen.single hstep,
    poolStep_inFlight_bounded 2 3 ⟨1, [some 0, none]⟩ (Relation.ReflTransGen.single hstep)⟩

/-! ### Part upload retries (client/xhr/upload-part.ts)

An attempt either resolves with an `XhrUploadPartResult` or rejects; a
rejection is either a `DOMException` named `AbortError` (cancellation) or an
ordinary `Error` (transient failure).  `exec k` is the outcome the
`(k+1)`-st call to `execute` would produce;  the model returns the overall
outcome paired with the number of attempts performed.  The `sleep` between
attempts has no observable effect here and is dropped.
-/

/-- Error raised by a failed part-upload attempt: a cancellation
(`DOMException` with name `AbortError`) or an ordinary transient failure. -/
inductive PartError where
  | abortError (message : String)
  | failure (message : String)
deriving DecidableEq, Repr

/-- Models the `normalizedError instanceof DOMException && name === "AbortError"`
test of `executeWithRetries`. -/
def PartError.isAbort : PartError → Bool
  | .abortError _ => true
  | .failure _ => false

def DEFAULT_RETRY_ATTEMPTS : Nat := 3

/-- Models the `retry` option: omitted, `true`, or a number. -/
inductive RetryOption where
  | missing
  | enabled
  | attempts (n : Int)
deriving DecidableEq, Repr

/-- Models `resolveMaxAttempts`: a number gives `Math.max(1, retry)`, `true`
gives `DEFAULT_RETRY_ATTEMPTS`, an omitted option gives 1. -/
def resolveMaxAttempts : RetryOption → Nat
  | .attempts n => (max 1 n).toNat
  | .enabled => DEFAULT_RETRY_ATTEMPTS
  | .missing => 1

/-- Models the `while (attempt < maxAttempts)` loop of `executeWithRetries`
from the state where `attempt` attempts have already been made and
`lastError` is the last recorded error. -/
def executeWithRetriesGo (maxAttempts : Nat)
    (exec : Nat → Except PartError XhrUploadPartResult)
    (attempt : Nat) (lastError : Option PartError) :
    Except PartError XhrUploadPartResult × Nat :=
  if h : attempt < maxAttempts then
    match exec attempt with
    | .ok r => (.ok r, attempt + 1)
    | .error e =>
      if e.isAbort then (.error e, attempt + 1)
      else if maxAttempts ≤ attempt + 1 then (.error e, attempt + 1)
      else executeWithRetriesGo maxAttempts exec (attempt + 1) (some e)
  else
    (.error (lastError.getD (.failure "Part upload failed: no attempts made")), attempt)
termination_by maxAttempts - attempt
decreasing_by omega

/-- Models `executeWithRetries`. -/
def executeWithRetries (maxAttempts : Nat)
    (exec : Nat → Except PartError XhrUploadPartResult) :
    Except PartError XhrUploadPartResult × Nat :=
  executeWithRetriesGo maxAttempts exec 0 none

/-- Models `xhrUploadPart`: resolve the attempt budget from the `retry`
option and run the retry loop. -/
def xhrUploadPart (retry : RetryOption)
    (exec : Nat → Except PartError XhrUploadPartResult) :
    Except PartError XhrUploadPartResult × Nat :=
  executeWithRetries (resolveMaxAttempts retry) exec

theorem executeWithRetriesGo_stop (maxAttempts : Nat)
    (exec : Nat → Except PartError XhrUploadPartResult)
    (attempt : Nat) (lastError : Option PartError) (h : ¬ attempt < maxAttempts) :
    executeWithRetriesGo maxAttempts exec attempt lastError =
      (.error (lastError.getD (.failure "Part upload failed: no attempts made")), attempt) := by
  rw [executeWithRetriesGo, dif_neg h]

theorem executeWithRetriesGo_step (maxAttempts : Nat)
    (exec : Nat → Except PartError XhrUploadPartResult)
    (attempt : Nat) (lastError : Option PartError) (h : attempt < maxAttempts) :
    executeWithRetriesGo maxAttempts exec attempt lastError =
      match exec attempt with
      | .ok r => (.ok r, attempt + 1)
      | .error e =>
        if e.isAbort then (.error e, attempt + 1)
        else if maxAttempts ≤ attempt + 1 then (.error e, attempt + 1)
        else executeWithRetriesGo maxAttempts exec (attempt + 1) (some e) := by
  rw [executeWithRetriesGo, dif_pos h]

theorem executeWithRetriesGo_transient (maxAttempts : Nat)
    (exec : Nat → Except PartError XhrUploadPartResult) :
    ∀ gap attempt lastError, maxAttempts - attempt ≤ gap → attempt < maxAttempts →
      (∀ k, attempt ≤ k → k < maxAttempts → ∃ m, exec k = .error (.failure m)) →
      ∀ m, exec (maxAttempts - 1) = .error (.failure m) →
      executeWithRetriesGo maxAttempts exec attempt lastError =
        (.error (.failure m), maxAttempts) := by
  intro gap
  induction gap with
  | zero =>
    intro attempt lastError hgap hlt _ _ _
    omega
  | succ gap ih =>
    intro attempt lastError hgap hlt hall m hlast
    rw [executeWithRetriesGo_step maxAttempts exec attempt lastError hlt]
    rcases hall attempt (Nat.le_refl _) hlt with ⟨m', hm'⟩
    simp only [hm', PartError.isAbort]
    by_cases hend : maxAttempts ≤ attempt + 1
    · have heq : attempt = maxAttempts - 1 := by omega
      rw [heq] at hm'
      have hmm : m' = m := by
        have := hm'.symm.trans hlast
        simpa using this
      subst hmm
      rw [if_neg (by simp), if_pos hend]
      have hcnt : attempt + 1 = maxAttempts := by omega
      rw [hcnt]
    · rw [if_neg (by simp), if_neg hend]
      exact ih (attempt + 1) (some (.failure m')) (by omega) (by omega)
        (fun k hk1 hk2 => hall k (by omega) hk2) m hlast

theorem executeWithRetriesGo_abort (maxAttempts : Nat)
    (exec : Nat → Except PartError XhrUploadPartResult) :
    ∀ gap attempt lastError j m, maxAttempts - attempt ≤ gap →
      attempt ≤ j → j < maxAttempts → exec j = .error (.abortError m) →
      (∀ k, attempt ≤ k → k < j → ∃ m2, exec k = .error (.failure m2)) →
      executeWithRetriesGo maxAttempts exec attempt lastError =
        (.error (.abortError m), j + 1) := by
  intro gap
  induction gap with
  | zero =>
    intro attempt lastError j m hgap hle hlt _ _
    omega
  | succ gap ih =>
    intro attempt lastError j m hgap hle hlt habort hall
    have hltm : attempt < maxAttempts := by omega
    rw [executeWithRetriesGo_step maxAttempts exec attempt lastError hltm]
    rcases Nat.eq_or_lt_of_le hle with heq | hltj
    · subst heq
      simp only [habort, PartError.isAbort]
      simp
    · rcases hall attempt (Nat.le_refl _) hltj with ⟨m2, hm2⟩
      simp only [hm2, PartError.isAbort]
      rw [if_neg (by simp), if_neg (by omega)]
      exact ih (attempt + 1) (some (.failure m2)) j m (by omega) (by omega) hlt habort
        (fun k hk1 hk2 => hall k (by omega) hk2)

theorem executeWithRetriesGo_count (maxAttempts : Nat)
    (exec : Nat → Except PartError XhrUploadPartResult) :
    ∀ gap attempt lastError, maxAttempts - attempt ≤ gap → attempt < maxAttempts →
      (executeWithRetriesGo maxAttempts exec attempt lastError).2 ≤ maxAttempts
      ∧ attempt < (executeWithRetriesGo maxAttempts exec attempt lastError).2
      ∧ (∀ e, (executeWithRetriesGo maxAttempts exec attempt lastError).1 = .error e →
          exec ((executeWithRetriesGo maxAttempts exec attempt lastError).2 - 1) =
            .error e) := by
  intro gap
  induction gap with
  | zero =>
    intro attempt lastError hgap hlt
    omega
  | succ gap ih =>
    intro attempt lastError hgap hlt
    rw [executeWithRetriesGo_step maxAttempts exec attempt lastError hlt]
    rcases hx : exec attempt with e | r
    · simp only [hx]
      rcases e with m | m
      · simp only [PartError.isAbort, if_pos]
        refine ⟨by omega, by omega, ?_⟩
        intro e' he'
        simp at he'
        subst he'
        simpa using hx
      · simp only [PartError.isAbort]
        rw [if_neg (by simp)]
        by_cases hend : maxAttempts ≤ attempt + 1
        · rw [if_pos hend]
          refine ⟨by omega, by omega, ?_⟩
          intro e' he'
          simp at he'
          subst he'
          simpa using hx
        · rw [if_neg hend]
          obtain ⟨h1, h2, h3⟩ := ih (attempt + 1) (some (.failure m)) (by omega) (by omega)
          exact ⟨h1, by omega, h3⟩
    · simp only [hx]
      refine ⟨by omega, by omega, ?_⟩
      intro e' he'
      simp at he'

/-- C6: with a configured maximum attempt count, transiently failing
attempts are retried until the budget is exhausted — exactly `maxAttempts`
attempts are performed and only the final attempt's error is thrown to the
caller; a cancellation (`AbortError`) occurring on attempt `j + 1` is
rethrown immediately after that attempt and never retried, regardless of
attempts remaining. -/
theorem executeWithRetries_retry_semantics (maxAttempts : Nat)
    (exec : Nat → Except PartError XhrUploadPartResult) (hmax : 1 ≤ maxAttempts) :
    ((∀ k, k < maxAttempts → ∃ m, exec k = .error (.failure m)) →
      ∀ m, exec (maxAttempts - 1) = .error (.failure m) →
        executeWithRetries maxAttempts exec = (.error (.failure m), maxAttempts))
    ∧ (∀ j m, j < maxAttempts → exec j = .error (.abortError m) →
        (∀ k, k < j → ∃ m2, exec k = .error (.failure m2)) →
        executeWithRetries maxAttempts exec = (.error (.abortError m), j + 1)) := by
  constructor
  · intro hall m hlast
    exact executeWithRetriesGo_transient maxAttempts exec maxAttempts 0 none (by omega)
      (by omega) (fun k _ hk => hall k hk) m hlast
  · intro j m hj habort hall
    exact executeWithRetriesGo_abort maxAttempts exec maxAttempts 0 none j m (by omega)
      (by omega) hj habort (fun k _ hk => hall k hk)

/-- Part-attempt oracle on which every attempt fails transiently. -/
def execAllFail : Nat → Except PartError XhrUploadPartResult :=
  fun _ => .error (.failure "network error")

/-- Witness for `executeWithRetries_retry_semantics`: three transiently
failing attempts exhaust a budget of 3 and surface the last error. -/
theorem executeWithRetries_retry_semantics_witness :
    1 ≤ 3
    ∧ executeWithRetries 3 execAllFail = (.error (.failure "network error"), 3) :=
  ⟨by decide,
    (executeWithRetries_retry_semantics 3 execAllFail (by decide)).1
      (fun k _ => ⟨"network error", rfl⟩) "network error" rfl⟩

theorem resolveMaxAttempts_pos (r : RetryOption) : 1 ≤ resolveMaxAttempts r := by
  rcases r with _ | _ | n
  · exact Nat.le_refl _
  · decide
  · show 1 ≤ (max 1 n).toNat
    have h1 : (1 : Int) ≤ max 1 n := le_max_left 1 n
    omega

/-- C10: when `retry` is omitted exactly one attempt is made; `retry = true`
gives at most `DEFAULT_RETRY_ATTEMPTS = 3` attempts; a numeric `retry = n`
resolves to a budget of `max(1, n)` and at most that many attempts are made;
and whenever the overall outcome is an error, it is the error of the last
attempt performed. -/
theorem xhrUploadPart_attempt_budget
    (exec : Nat → Except PartError XhrUploadPartResult) :
    (resolveMaxAttempts .missing = 1 ∧ (xhrUploadPart .missing exec).2 = 1)
    ∧ (resolveMaxAttempts .enabled = 3 ∧ (xhrUploadPart .enabled exec).2 ≤ 3)
    ∧ (∀ n : Int, ((resolveMaxAttempts (.attempts n) : Nat) : Int) = max 1 n
        ∧ (xhrUploadPart (.attempts n) exec).2 ≤ resolveMaxAttempts (.attempts n))
    ∧ (∀ r e, (xhrUploadPart r exec).1 = .error e →
        exec ((xhrUploadPart r exec).2 - 1) = .error e) := by
  have hcount : ∀ r : RetryOption,
      (xhrUploadPart r exec).2 ≤ resolveMaxAttempts r
      ∧ 0 < (xhrUploadPart r exec).2
      ∧ (∀ e, (xhrUploadPart r exec).1 = .error e →
          exec ((xhrUploadPart r exec).2 - 1) = .error e) := by
    intro r
    have hpos := resolveMaxAttempts_pos r
    obtain ⟨h1, h2, h3⟩ := executeWithRetriesGo_count (resolveMaxAttempts r) exec
      (resolveMaxAttempts r) 0 none (by omega) (by omega)
    exact ⟨h1, h2, h3⟩
  refine ⟨⟨rfl, ?_⟩, ⟨rfl, (hcount .enabled).1⟩, ?_, fun r => (hcount r).2.2⟩
  · obtain ⟨h1, h2, _⟩ := hcount .missing
    have h1' : (xhrUploadPart .missing exec).2 ≤ 1 := h1
    omega
  · intro n
    refine ⟨?_, (hcount (.attempts n)).1⟩
    show (((max 1 n).toNat : Nat) : Int) = max 1 n
    exact Int.toNat_of_nonneg (le_trans (by norm_num) (le_max_left 1 n))

/-- Witness for `xhrUploadPart_attempt_budget`: an omitted `retry` performs
exactly one attempt, `retry = true` at most three. -/
theorem xhrUploadPart_attempt_budget_witness :
    (resolveMaxAttempts .missing = 1 ∧ (xhrUploadPart .missing execAllFail).2 = 1)
    ∧ (resolveMaxAttempts .enabled = 3 ∧ (xhrUploadPart .enabled execAllFail).2 ≤ 3) :=
  ⟨(xhrUploadPart_attempt_budget execAllFail).1,
    (xhrUploadPart_attempt_budget execAllFail).2.1⟩

/-! ### Retry delay policy (core/resilience/retry.ts) -/

/-- Retry backoff configuration (`RetryConfig`), as used by
`client/xhr/upload-part.ts` and its tests. -/
structure RetryConfig where
  baseDelayMs : Nat
  backoffMultiplier : Nat
  maxDelayMs : Nat
  maxJitterMs : Nat
deriving DecidableEq, Repr

/-- Modelled from the spec: the implementation of `calculateRetryDelay` in
`core/resilience/retry.ts` is not among the provided sources — only its
callers and tests are.  Per §4.6 of the spec the delay is the exponential
backoff `min(baseDelayMs * backoffMultiplier^(attempt-1), maxDelayMs)` plus
a uniformly random jitter in `[0, maxJitterMs]`, added, not multiplied; the
random draw is modelled as the explicit argument `jitter`. -/
def calculateRetryDelay (attempt : Nat) (config : RetryConfig) (jitter : Nat) : Nat :=
  min (config.baseDelayMs * config.backoffMultiplier ^ (attempt - 1)) config.maxDelayMs
    + jitter

/-- Counterexample to C7 as stated: the claim asserts that for every config
the delay is non-decreasing in the attempt number for fixed jitter, but at
`backoffMultiplier = 0` (config `{baseDelayMs := 100, backoffMultiplier := 0,
maxDelayMs := 1000, maxJitterMs := 0}`, jitter 0) the delay is 100 on
attempt 1 and 0 on attempt 2 — strictly decreasing. -/
theorem calculateRetryDelay_not_monotone :
    calculateRetryDelay 1 (RetryConfig.mk 100 0 1000 0) 0 = 100
    ∧ calculateRetryDelay 2 (RetryConfig.mk 100 0 1000 0) 0 = 0
    ∧ ¬(calculateRetryDelay 1 (RetryConfig.mk 100 0 1000 0) 0 ≤
        calculateRetryDelay 2 (RetryConfig.mk 100 0 1000 0) 0) := by
  decide

/-- C7 (amended): for every attempt ≥ 1 and every jitter draw in
`[0, maxJitterMs]`, `calculateRetryDelay` equals the capped exponential
backoff plus the jitter, hence lies in `[floor, floor + maxJitterMs]` for
`floor = min(baseDelayMs * backoffMultiplier^(attempt-1), maxDelayMs)` and
never exceeds `maxDelayMs + maxJitterMs`; for a fixed jitter, when the
backoff multiplier is at least 1 it is non-decreasing in the attempt number
up to the `maxDelayMs` cap (with a multiplier below 1 the backoff term
shrinks, see `calculateRetryDelay_not_monotone`). -/
theorem calculateRetryDelay_spec (attempt : Nat) (config : RetryConfig) (jitter : Nat)
    (hatt : 1 ≤ attempt) (hj : jitter ≤ config.maxJitterMs) :
    calculateRetryDelay attempt config jitter =
      min (config.baseDelayMs * config.backoffMultiplier ^ (attempt - 1))
        config.maxDelayMs + jitter
    ∧ min (config.baseDelayMs * config.backoffMultiplier ^ (attempt - 1))
        config.maxDelayMs ≤ calculateRetryDelay attempt config jitter
    ∧ calculateRetryDelay attempt config jitter ≤
        min (config.baseDelayMs * config.backoffMultiplier ^ (attempt - 1))
          config.maxDelayMs + config.maxJitterMs
    ∧ calculateRetryDelay attempt config jitter ≤ config.maxDelayMs + config.maxJitterMs
    ∧ (1 ≤ config.backoffMultiplier → ∀ b, attempt ≤ b →
        calculateRetryDelay attempt config jitter ≤ calculateRetryDelay b config jitter) := by
  refine ⟨rfl, ?_, ?_, ?_, ?_⟩
  · rw [calculateRetryDelay]
    omega
  · rw [calculateRetryDelay]
    omega
  · rw [calculateRetryDelay]
    have hr := Nat.min_le_right
      (config.baseDelayMs * config.backoffMultiplier ^ (attempt - 1)) config.maxDelayMs
    omega
  · intro hmult b hb
    have hpow : config.backoffMultiplier ^ (attempt - 1) ≤
        config.backoffMultiplier ^ (b - 1) :=
      Nat.pow_le_pow_right hmult (by omega)
    have hmul : config.baseDelayMs * config.backoffMultiplier ^ (attempt - 1) ≤
        config.baseDelayMs * config.backoffMultiplier ^ (b - 1) :=
      Nat.mul_le_mul_left _ hpow
    rw [calculateRetryDelay, calculateRetryDelay]
    omega

/-- Witness for `calculateRetryDelay_spec` at the test file's configuration
`{baseDelayMs := 100, backoffMultiplier := 2, maxDelayMs := 1000,
maxJitterMs := 0}` and the first attempt. -/
theorem calculateRetryDelay_spec_witness :
    1 ≤ 1 ∧ 0 ≤ (RetryConfig.mk 100 2 1000 0).maxJitterMs
    ∧ (calculateRetryDelay 1 (RetryConfig.mk 100 2 1000 0) 0 =
        min ((RetryConfig.mk 100 2 1000 0).baseDelayMs *
          (RetryConfig.mk 100 2 1000 0).backoffMultiplier ^ (1 - 1))
          (RetryConfig.mk 100 2 1000 0).maxDelayMs + 0
      ∧ min ((RetryConfig.mk 100 2 1000 0).baseDelayMs *
          (RetryConfig.mk 100 2 1000 0).backoffMultiplier ^ (1 - 1))
          (RetryConfig.mk 100 2 1000 0).maxDelayMs ≤
          calculateRetryDelay 1 (RetryConfig.mk 100 2 1000 0) 0
      ∧ calculateRetryDelay 1 (RetryConfig.mk 100 2 1000 0) 0 ≤
          min ((RetryConfig.mk 100 2 1000 0).baseDelayMs *
            (RetryConfig.mk 100 2 1000 0).backoffMultiplier ^ (1 - 1))
            (RetryConfig.mk 100 2 1000 0).maxDelayMs +
            (RetryConfig.mk 100 2 1000 0).maxJitterMs
      ∧ calculateRetryDelay 1 (RetryConfig.mk 100 2 1000 0) 0 ≤
          (RetryConfig.mk 100 2 1000 0).maxDelayMs +
            (RetryConfig.mk 100 2 1000 0).maxJitterMs
      ∧ (1 ≤ (RetryConfig.mk 100 2 1000 0).backoffMultiplier → ∀ b, 1 ≤ b →
          calculateRetryDelay 1 (RetryConfig.mk 100 2 1000 0) 0 ≤
            calculateRetryDelay b (RetryConfig.mk 100 2 1000 0) 0)) :=
  ⟨by decide, by decide,
    calculateRetryDelay_spec 1 (RetryConfig.mk 100 2 1000 0) 0 (by decide) (by decide)⟩

/-! ### Request signer (core/security/request-signer.ts) -/

/-- Signing configuration (`RequestSigningConfig` in types/security). -/
structure RequestSigningConfig where
  secret : String
  timestampToleranceMs : Nat
  requireNonce : Bool
deriving DecidableEq, Repr

/-- Failure reasons of `verify` (§4.1 of the spec). -/
inductive VerifyFailureReason where
  | timestamp_invalid
  | timestamp_expired
  | nonce_missing
  | nonce_reused
  | signature_mismatch
deriving DecidableEq, Repr

/-- Outcome of `verify`: `{valid: true}` or `{valid: false, reason}`. -/
inductive VerifyOutcome where
  | valid
  | invalid (reason : VerifyFailureReason)
deriving DecidableEq, Repr

/-- Input to `verify`. -/
structure VerifyArgs where
  method : String
  path : String
  body : String
  signature : String
  timestamp : Int
  nonce : Option String
deriving DecidableEq, Repr

/-- Modelled from the spec: the canonical string `sign` and `verify` agree
on, built deterministically from method, path, timestamp, nonce (if present)
and the raw body text (§4.1). -/
def canonicalString (method path : String) (timestamp : Int) (nonce : Option String)
    (body : String) : String :=
  method ++ "\n" ++ path ++ "\n" ++ toString timestamp ++ "\n" ++ nonce.getD "" ++
    "\n" ++ body

/-- Modelled from the spec: stand-in for the keyed HMAC-SHA-256 digest over
the canonical string (`core/security/request-signer.ts` is not among the
provided sources); the digest is abstracted as an injective pairing of
secret and message, which preserves everything the claims about check order
and nonce-store side effects depend on. -/
def hmacDigest (secret message : String) : String :=
  secret ++ ":" ++ message

/-- Whether the nonce of a request was already recorded as used by the nonce
store (a set of used nonces, modelled as a list). -/
def nonceSeen (nonce : Option String) (store : List String) : Bool :=
  match nonce with
  | some n => store.contains n
  | none => false

/-- Modelled from the spec (§4.1, §4.2): `verify` checks the timestamp
window, then the nonce (required-presence, then reuse against the store),
then recomputes and compares the signature, in that fixed order; the nonce
is recorded as used only after the signature check passes.  Returns the
outcome and the resulting nonce store. -/
def verify (config : RequestSigningConfig) (now : Int) (input : VerifyArgs)
    (store : List String) : VerifyOutcome × List String :=
  if (now - input.timestamp).natAbs > config.timestampToleranceMs then
    (.invalid .timestamp_expired, store)
  else if config.requireNonce ∧ input.nonce = none then
    (.invalid .nonce_missing, store)
  else if nonceSeen input.nonce store then
    (.invalid .nonce_reused, store)
  else if input.signature ≠ hmacDigest config.secret
      (canonicalString input.method input.path input.timestamp input.nonce input.body) then
    (.invalid .signature_mismatch, store)
  else
    (.valid, match input.nonce with | some n => n :: store | none => store)

/-- C4: `verify` runs its checks in the fixed order timestamp → nonce →
signature, so the returned failure reason is always that of the first
failing check (each characterization below holds for every value of the
later checks' inputs); every failing verification — in particular one
failing with `signature_mismatch` — leaves the nonce store unchanged, and a
nonce is recorded as used only when verification succeeds. -/
theorem verify_check_order (config : RequestSigningConfig) (now : Int)
    (input : VerifyArgs) (store : List String) :
    ((now - input.timestamp).natAbs > config.timestampToleranceMs →
      verify config now input store = (.invalid .timestamp_expired, store))
    ∧ ((now - input.timestamp).natAbs ≤ config.timestampToleranceMs →
        config.requireNonce = true → input.nonce = none →
        verify config now input store = (.invalid .nonce_missing, store))
    ∧ (∀ n, (now - input.timestamp).natAbs ≤ config.timestampToleranceMs →
        input.nonce = some n → store.contains n = true →
        verify config now input store = (.invalid .nonce_reused, store))
    ∧ ((now - input.timestamp).natAbs ≤ config.timestampToleranceMs →
        ¬(config.requireNonce = true ∧ input.nonce = none) →
        nonceSeen input.nonce store = false →
        input.signature ≠ hmacDigest config.secret
          (canonicalString input.method input.path input.timestamp input.nonce input.body) →
        verify config now input store = (.invalid .signature_mismatch, store))
    ∧ ((verify config now input store).1 = .invalid .signature_mismatch →
        (verify config now input store).2 = store)
    ∧ (∀ r, (verify config now input store).1 = .invalid r →
        (verify config now input store).2 = store)
    ∧ ((now - input.timestamp).natAbs ≤ config.timestampToleranceMs →
        ¬(config.requireNonce = true ∧ input.nonce = none) →
        nonceSeen input.nonce store = false →
        input.signature = hmacDigest config.secret
          (canonicalString input.method input.path input.timestamp input.nonce input.body) →
        verify config now input store =
          (.valid, match input.nonce with | some n => n :: store | none => store)) := by
  have hstore : ∀ r, (verify config now input store).1 = .invalid r →
      (verify config now input store).2 = store := by
    intro r hr
    rw [verify] at hr ⊢
    split_ifs at hr ⊢ <;> simp_all
  refine ⟨?_, ?_, ?_, ?_, hstore _, hstore, ?_⟩
  · intro h1
    rw [verify, if_pos h1]
  · intro h1 h2 h3
    rw [verify, if_neg (by omega), if_pos ⟨h2, h3⟩]
  · intro n h1 h2 h3
    rw [verify, if_neg (by omega),
      if_neg (by rw [h2]; simp), if_pos (by simp only [nonceSeen, h2]; exact h3)]
  · intro h1 h2 h3 h4
    rw [verify, if_neg (by omega), if_neg h2, if_neg (by simp [h3]), if_pos h4]
  · intro h1 h2 h3 h4
    rw [verify, if_neg (by omega), if_neg h2, if_neg (by simp [h3]),
      if_neg (by simp [h4])]

/-- Witness for `verify_check_order`: a forged signature fails with
`signature_mismatch` and leaves the nonce store unchanged. -/
theorem verify_check_order_witness :
    ((verify ⟨"s", 1000, true⟩ 0 ⟨"POST", "/route", "data", "bad", 0, some "n1"⟩ []).1 =
        .invalid .signature_mismatch)
    ∧ (verify ⟨"s", 1000, true⟩ 0 ⟨"POST", "/route", "data", "bad", 0, some "n1"⟩ []).2 =
        [] :=
  ⟨by decide,
    (verify_check_order ⟨"s", 1000, true⟩ 0
        ⟨"POST", "/route", "data", "bad", 0, some "n1"⟩ []).2.2.2.2.1 (by decide)⟩

/-! ### Signature verification middleware (middleware/verify-signature.ts) -/

/-- Error codes of the middleware's typed errors (`StorageErrorCode`). -/
inductive StorageErrorCode where
  | SIGNATURE_MISSING
  | TIMESTAMP_MISSING
  | NONCE_MISSING
  | SIGNATURE_INVALID
  | TIMESTAMP_EXPIRED
  | NONCE_REUSED
  | UNAUTHORIZED
deriving DecidableEq, Repr

/-- Models `getHeader` / `Headers.get`: the value of the first header with
the given name, or `undefined` when absent. -/
def getHeader (headers : List (String × String)) (nm : String) : Option String :=
  (headers.find? fun p => p.1 == nm).map Prod.snd

/-- Models `Number.parseInt(timestampStr, 10)` plus the `Number.isFinite`
guard: leading whitespace is skipped, then an optional sign followed by at
least one decimal digit parses (trailing characters are ignored, as
`parseInt` ignores them); anything else is `NaN` and is rejected. -/
def parseTimestamp (s : String) : Option Int :=
  let digits : List Char → Option Nat := fun cs =>
    let ds := cs.takeWhile Char.isDigit
    if ds.isEmpty then none
    else some (ds.foldl (fun acc c => acc * 10 + (c.toNat - 48)) 0)
  match s.data.dropWhile Char.isWhitespace with
  | '-' :: rest => (digits rest).map fun v => -(v : Int)
  | '+' :: rest => (digits rest).map fun v => (v : Int)
  | cs => (digits cs).map fun v => (v : Int)

/-- JS truthiness test `!x` on an optional header value: true when the
header is absent and also when it is present with the empty string as
value. -/
def headerFalsy (o : Option String) : Bool :=
  match o with
  | none => true
  | some s => s.isEmpty

/-- An inbound request as the middleware sees it (`path` is the already
extracted URL pathname). -/
structure MwRequest where
  method : String
  path : String
  headers : List (String × String)
  body : String
deriving DecidableEq, Repr

/-- Configuration of the verification middleware (the fields the claims
are about). -/
structure VerifySignatureMiddlewareConfig where
  requireNonce : Bool
  skipPaths : List String
deriving DecidableEq, Repr

/-- A successful verification result (`VerificationResult`). -/
structure VerificationResult where
  timestamp : Int
  nonce : Option String
deriving DecidableEq, Repr

/-- Models the `errorMap` table: how a signer failure reason maps to the
middleware's typed error code. -/
def mapVerifyReason : VerifyFailureReason → StorageErrorCode
  | .signature_mismatch => .SIGNATURE_INVALID
  | .timestamp_expired => .TIMESTAMP_EXPIRED
  | .timestamp_invalid => .TIMESTAMP_MISSING
  | .nonce_missing => .NONCE_MISSING
  | .nonce_reused => .NONCE_REUSED

/-- Models the request handler returned by `createVerifySignatureMiddleware`
(middleware/verify-signature.ts).  The `!signature`, `!timestampStr` and
`config.requireNonce && !nonce` guards of the source are JS truthiness
tests, modelled by `headerFalsy` (absent or empty-valued header).  The
signer's `verify` is abstracted as the oracle `signerVerify`; the Boolean
of the result records whether the signer's `verify` was called.  The
optional post-verification auth hook is not modelled (no claim concerns
it). -/
def verifySignatureMiddleware (config : VerifySignatureMiddlewareConfig)
    (signerVerify : VerifyArgs → VerifyOutcome) (now : Int) (request : MwRequest) :
    Except StorageErrorCode VerificationResult × Bool :=
  if request.path ∈ config.skipPaths then
    (.ok ⟨now, none⟩, false)
  else if headerFalsy (getHeader request.headers "x-signature") then
    (.error .SIGNATURE_MISSING, false)
  else if headerFalsy (getHeader request.headers "x-timestamp") then
    (.error .TIMESTAMP_MISSING, false)
  else
    match parseTimestamp ((getHeader request.headers "x-timestamp").getD "") with
    | none => (.error .TIMESTAMP_MISSING, false)
    | some timestamp =>
      if config.requireNonce && headerFalsy (getHeader request.headers "x-nonce") then
        (.error .NONCE_MISSING, false)
      else
        match signerVerify ⟨request.method, request.path, request.body,
            (getHeader request.headers "x-signature").getD "", timestamp,
            getHeader request.headers "x-nonce"⟩ with
        | .valid =>
            (.ok ⟨timestamp, getHeader request.headers "x-nonce"⟩, true)
        | .invalid r => (.error (mapVerifyReason r), true)

/-- C5: on a non-skipped path, a missing `x-signature` header throws
`SIGNATURE_MISSING`; with a signature that passes the source's truthiness
guard, a missing `x-timestamp` header throws `TIMESTAMP_MISSING`; with
signature and timestamp passing their guards and the timestamp parseable, a
missing `x-nonce` header while nonces are required throws `NONCE_MISSING` —
in each case before the signer's `verify` is ever called (the verify-called
flag is `false`), for every signer oracle. -/
theorem verifySignatureMiddleware_missing_headers
    (config : VerifySignatureMiddlewareConfig) (signerVerify : VerifyArgs → VerifyOutcome)
    (now : Int) (request : MwRequest) (hskip : request.path ∉ config.skipPaths) :
    (getHeader request.headers "x-signature" = none →
      verifySignatureMiddleware config signerVerify now request =
        (.error .SIGNATURE_MISSING, false))
    ∧ (headerFalsy (getHeader request.headers "x-signature") = false →
        getHeader request.headers "x-timestamp" = none →
        verifySignatureMiddleware config signerVerify now request =
          (.error .TIMESTAMP_MISSING, false))
    ∧ (∀ t, headerFalsy (getHeader request.headers "x-signature") = false →
        headerFalsy (getHeader request.headers "x-timestamp") = false →
        parseTimestamp ((getHeader request.headers "x-timestamp").getD "") = some t →
        config.requireNonce = true →
        getHeader request.headers "x-nonce" = none →
        verifySignatureMiddleware config signerVerify now request =
          (.error .NONCE_MISSING, false)) := by
  refine ⟨?_, ?_, ?_⟩
  · intro hsig
    rw [verifySignatureMiddleware, if_neg hskip, if_pos (by rw [hsig]; rfl)]
  · intro hsig hts
    rw [verifySignatureMiddleware, if_neg hskip, if_neg (by simp [hsig]),
      if_pos (by rw [hts]; rfl)]
  · intro t hsig hts hpars hreq hnon
    rw [verifySignatureMiddleware, if_neg hskip, if_neg (by simp [hsig]),
      if_neg (by simp [hts])]
    simp only [hpars]
    rw [if_pos (by rw [hreq, hnon]; rfl)]

/-- Witness for `verifySignatureMiddleware_missing_headers`: a request with
no headers on a non-skipped path is rejected with `SIGNATURE_MISSING` and
the signer is never called. -/
theorem verifySignatureMiddleware_missing_headers_witness :
    ("/route" ∉ (⟨true, []⟩ : VerifySignatureMiddlewareConfig).skipPaths)
    ∧ getHeader ([] : List (String × String)) "x-signature" = none
    ∧ verifySignatureMiddleware ⟨true, []⟩ (fun _ => .valid) 0
        ⟨"POST", "/route", [], "data"⟩ = (.error .SIGNATURE_MISSING, false) :=
  ⟨by decide, rfl,
    (verifySignatureMiddleware_missing_headers ⟨true, []⟩ (fun _ => .valid) 0
        ⟨"POST", "/route", [], "data"⟩ (by decide)).1 rfl⟩

/-! ### Middleware construction (middleware/core/create-middleware.ts) -/

/-- Middleware configuration: a name plus optional `skipPaths` and
`includePaths` (absent fields modelled as `none`). -/
structure MiddlewareConfig where
  name : String
  skipPaths : Option (List String)
  includePaths : Option (List String)
deriving DecidableEq, Repr

/-- Models the truthiness test `config.skipPaths && config.skipPaths.length > 0`:
true exactly when the field is present with a non-empty array (an absent
field, and an empty array whose `length > 0` is false, both fail). -/
def hasNonEmptyPaths : Option (List String) → Bool
  | some l => !l.isEmpty
  | none => false

/-- Models `validateConfig`. -/
def validateConfig (config : MiddlewareConfig) : Except String Unit :=
  if hasNonEmptyPaths config.skipPaths && hasNonEmptyPaths config.includePaths then
    .error ("Middleware \"" ++ config.name ++
      "\": skipPaths and includePaths are mutually exclusive")
  else
    .ok ()

/-- A constructed middleware value (`StorageMiddleware`). -/
structure StorageMiddleware (Ctx Res : Type) where
  config : MiddlewareConfig
  handler : Ctx → Res

/-- Models `createStorageMiddleware`: validate the config, then return the
middleware; a validation failure is thrown at construction time as an
error, so no middleware value exists to reach request time. -/
def createStorageMiddleware {Ctx Res : Type} (config : MiddlewareConfig)
    (handler : Ctx → Res) : Except String (StorageMiddleware Ctx Res) :=
  match validateConfig config with
  | .error e => .error e
  | .ok _ => .ok ⟨config, handler⟩

theorem hasNonEmptyPaths_iff (o : Option (List String)) :
    hasNonEmptyPaths o = true ↔ ∃ l, o = some l ∧ l ≠ [] := by
  rcases o with _ | l
  · simp [hasNonEmptyPaths]
  · simp [hasNonEmptyPaths]

/-- Counterexample to C9 as stated: a middleware whose config supplies both
`skipPaths` (as the empty array) and `includePaths` is constructed
successfully — `validateConfig` treats an empty array like an absent field,
so supplying both fields does not by itself throw. -/
theorem createStorageMiddleware_both_configured_ok :
    (⟨"m", some [], some ["/b"]⟩ : MiddlewareConfig).skipPaths ≠ none
    ∧ (⟨"m", some [], some ["/b"]⟩ : MiddlewareConfig).includePaths ≠ none
    ∧ createStorageMiddleware (⟨"m", some [], some ["/b"]⟩ : MiddlewareConfig)
        (fun x : Unit => x) =
      .ok ⟨⟨"m", some [], some ["/b"]⟩, fun x : Unit => x⟩ :=
  ⟨by decide, by decide, rfl⟩

/-- C9 (amended): `createStorageMiddleware` fails — at construction time,
producing no middleware value that could reach request time — exactly when
both `skipPaths` and `includePaths` are configured as non-empty lists; with
at most one of the two non-empty (in particular with only one configured,
or neither) construction succeeds and returns the middleware. -/
theorem createStorageMiddleware_mutual_exclusion {Ctx Res : Type}
    (config : MiddlewareConfig) (handler : Ctx → Res) :
    ((∃ e, createStorageMiddleware config handler = .error e) ↔
      ((∃ l, config.skipPaths = some l ∧ l ≠ []) ∧
        (∃ l, config.includePaths = some l ∧ l ≠ [])))
    ∧ (¬((∃ l, config.skipPaths = some l ∧ l ≠ []) ∧
          (∃ l, config.includePaths = some l ∧ l ≠ [])) →
        createStorageMiddleware config handler = .ok ⟨config, handler⟩) := by
  have hneg : ∀ h1 : ¬(hasNonEmptyPaths config.skipPaths &&
      hasNonEmptyPaths config.includePaths) = true,
      createStorageMiddleware config handler = .ok ⟨config, handler⟩ := by
    intro h1
    rw [createStorageMiddleware, validateConfig, if_neg h1]
  constructor
  · constructor
    · rintro ⟨e, he⟩
      by_cases h1 : (hasNonEmptyPaths config.skipPaths &&
          hasNonEmptyPaths config.includePaths) = true
      · rcases Bool.and_eq_true_iff.mp h1 with ⟨hs, hi⟩
        exact ⟨(hasNonEmptyPaths_iff _).mp hs, (hasNonEmptyPaths_iff _).mp hi⟩
      · rw [hneg h1] at he
        exact absurd he (by simp)
    · rintro ⟨⟨l1, hl1, hne1⟩, ⟨l2, hl2, hne2⟩⟩
      refine ⟨"Middleware \"" ++ config.name ++
        "\": skipPaths and includePaths are mutually exclusive", ?_⟩
      rw [createStorageMiddleware, validateConfig,
        if_pos (Bool.and_eq_true_iff.mpr
          ⟨(hasNonEmptyPaths_iff _).mpr ⟨l1, hl1, hne1⟩,
            (hasNonEmptyPaths_iff _).mpr ⟨l2, hl2, hne2⟩⟩)]
  · intro hnot
    apply hneg
    intro hh
    rcases Bool.and_eq_true_iff.mp hh with ⟨hs, hi⟩
    exact hnot ⟨(hasNonEmptyPaths_iff _).mp hs, (hasNonEmptyPaths_iff _).mp hi⟩

/-- Witness for `createStorageMiddleware_mutual_exclusion`: both path lists
configured non-empty fails at construction time. -/
theorem createStorageMiddleware_mutual_exclusion_witness :
    ∃ e, createStorageMiddleware (⟨"m", some ["/a"], some ["/b"]⟩ : MiddlewareConfig)
        (fun x : Unit => x) = .error e :=
  (createStorageMiddleware_mutual_exclusion ⟨"m", some ["/a"], some ["/b"]⟩
      (fun x : Unit => x)).1.mpr
    ⟨⟨["/a"], rfl, by decide⟩, ⟨["/b"], rfl, by decide⟩⟩

end VS3
